import Mathlib

/-
Verification of the star-schema SQL rewriting engine of the duckdb backend
(file src/ibis/backends/duckdb/__init__.py, lines 84-230).

Embedding notes.

Data model: Python dicts are embedded as association lists (Python dicts
preserve insertion order; lookup returns the value of the unique binding,
modelled here as first-match lookup).  Python sets are embedded as
duplicate-free lists in insertion order: the add operation appends an element
not already present.  CPython leaves actual set iteration order unspecified
(hash dependent); this model fixes it to insertion order, which is the only
source of order in the produced SQL strings.

Query trees: the sqlglot expression tree is embedded as the closed sum type
QNode with three observable node kinds, exactly the interface the rewriter
uses: From nodes carrying the referenced table name and an optional alias
(sqlglot From.name and From.alias delegate to the underlying table),
column-reference nodes carrying a bare column name and an optional qualifier,
and a passthrough constructor for every other node kind, carrying children.
The node produced by parse_one(updated, into=exp.From) when a From node is
replaced is embedded as the constructor fromRaw carrying the constructed SQL
text of the replacement From term.

External collaborators (sqlglot parse_one/optimize and the serializer
Expression.sql) are not part of this repository; the driver is therefore
parameterized over an arbitrary optimizer function String -> QNode and
serializer function QNode -> String, matching the boundary description of the
specification (tree in, tree out).

Python exceptions that the code does not catch (the KeyError raised by the
join-key lookup schema[dimension_tables][dim]) are embedded as Option, with
none for the raising branch.
-/

/-- Star schema registry entry: embeds the dict value stored in
Backend.override_schemas, with fields fact, dimension_tables (dimension
table name to join key) and col_to_table_map (column name to owning table). -/
structure StarSchema where
  fact : String
  dimension_tables : List (String × String)
  col_to_table_map : List (String × String)

/-- The registry Backend.override_schemas: a dict from logical table name to
its star schema, embedded as an association list. -/
abbrev Registry := List (String × StarSchema)

/-- Python dict read d[k], embedded as first-match association lookup;
none embeds the KeyError branch. -/
def dictGet {α : Type} (k : String) : List (String × α) → Option α
  | [] => none
  | p :: ps => if p.1 = k then some p.2 else dictGet k ps

/-- Python dict write d[k] = v: overwrite the binding in place when the key
is present, otherwise append a new binding (insertion order of dicts). -/
def dictUpdate {α : Type} (d : List (String × α)) (k : String) (v : α) :
    List (String × α) :=
  if (dictGet k d).isSome then
    d.map (fun p => if p.1 = k then (k, v) else p)
  else
    d ++ [(k, v)]

/-- Backend.register_schema: for key, value in schema.items() do
override_schemas[key] = value. -/
def register_schema (reg : Registry) (schema : List (String × StarSchema)) :
    Registry :=
  schema.foldl (fun acc kv => dictUpdate acc kv.1 kv.2) reg

/-- Query tree node: From nodes (table name, optional alias), replaced From
nodes carrying the re-parsed replacement text, column references (bare name,
optional qualifier), and a passthrough constructor for all other node kinds. -/
inductive QNode : Type where
  | fromN (tbl : String) (al : Option String) : QNode
  | fromRaw (txt : String) : QNode
  | colN (nm : String) (qual : Option String) : QNode
  | other (children : List QNode) : QNode

mutual

/-- Table-name half of get_table_and_column_names: the transform visits every
node; a From node whose name is truthy (non-empty) contributes its name.
Listed here in visit order, before set deduplication. -/
def collectTables : QNode → List String
  | QNode.fromN tbl _ => if tbl = "" then [] else [tbl]
  | QNode.other cs => collectTablesList cs
  | _ => []

def collectTablesList : List QNode → List String
  | [] => []
  | c :: cs => collectTables c ++ collectTablesList cs

end

mutual

/-- Column-name half of get_table_and_column_names: every Column node
contributes its bare name (node.name ignores the qualifier), in visit order,
before set deduplication. -/
def collectColumns : QNode → List String
  | QNode.colN nm _ => [nm]
  | QNode.other cs => collectColumnsList cs
  | _ => []

def collectColumnsList : List QNode → List String
  | [] => []
  | c :: cs => collectColumns c ++ collectColumnsList cs

end

mutual

/-- All nodes of a tree, the node itself included; used to state which nodes
a traversal visits. -/
def subnodes : QNode → List QNode
  | QNode.fromN tbl al => [QNode.fromN tbl al]
  | QNode.fromRaw s => [QNode.fromRaw s]
  | QNode.colN nm q => [QNode.colN nm q]
  | QNode.other cs => QNode.other cs :: subnodesList cs

def subnodesList : List QNode → List QNode
  | [] => []
  | c :: cs => subnodes c ++ subnodesList cs

end

mutual

/-- Number of From nodes in the tree whose name equals tn, i.e. the nodes the
per-table rewrite matches. -/
def countFromNamed (tn : String) : QNode → Nat
  | QNode.fromN tbl _ => if tbl = tn then 1 else 0
  | QNode.other cs => countFromNamedList tn cs
  | _ => 0

def countFromNamedList (tn : String) : List QNode → Nat
  | [] => 0
  | c :: cs => countFromNamed tn c + countFromNamedList tn cs

end

mutual

/-- Number of replaced From nodes (results of parse_one on the rewrite
string) in the tree. -/
def countRaw : QNode → Nat
  | QNode.fromRaw _ => 1
  | QNode.other cs => countRawList cs
  | _ => 0

def countRawList : List QNode → Nat
  | [] => 0
  | c :: cs => countRaw c + countRawList cs

end

/-- Python set add: append the element when absent, keep the list unchanged
when present. -/
def addSet (s : List String) (x : String) : List String :=
  if x ∈ s then s else s ++ [x]

/-- Accumulating a traversal-ordered list of names into a Python set:
duplicate-free list in first-insertion order. -/
def dedupIns (l : List String) : List String :=
  l.foldl addSet []

/-- The pair (table_names, column_names) produced by the
get_table_and_column_names transform over the optimized tree. -/
def get_table_and_column_names (t : QNode) : List String × List String :=
  (dedupIns (collectTables t), dedupIns (collectColumns t))

/-- The sqlglot property node.alias_or_name on a From node: the alias when it
is truthy, otherwise the table name (From delegates both to its table). -/
def alias_or_name (tbl : String) (al : Option String) : String :=
  match al with
  | some a => if a = "" then tbl else a
  | none => tbl

/-- The per-node function rewrite_from: a From node whose name equals
table_name is replaced by parse_one of the rewrite string, with
" AS " + node.alias_or_name appended when alias_or_name is truthy; every
other node is returned unchanged. -/
def rewrite_from (table_name rewrite_str : String) : QNode → QNode
  | QNode.fromN tbl al =>
    if tbl = table_name then
      QNode.fromRaw
        (if alias_or_name tbl al = "" then rewrite_str
         else rewrite_str ++ " AS " ++ alias_or_name tbl al)
    else QNode.fromN tbl al
  | n => n

mutual

/-- Application expression_tree.transform(rewrite_from): sqlglot transform
applies the function to a node first and, when the node is returned
unchanged, recurses into its children; a replaced node is returned without
further descent.  Since rewrite_from only replaces From nodes, which carry no
children in this embedding, this amounts to mapping rewrite_from over every
node.  A node already replaced in an earlier per-table pass (fromRaw) has no
matching name and is never replaced again. -/
def rewriteFromTree (table_name rewrite_str : String) : QNode → QNode
  | QNode.other cs => QNode.other (rewriteFromTreeList table_name rewrite_str cs)
  | n => rewrite_from table_name rewrite_str n

def rewriteFromTreeList (table_name rewrite_str : String) :
    List QNode → List QNode
  | [] => []
  | c :: cs =>
    rewriteFromTree table_name rewrite_str c ::
      rewriteFromTreeList table_name rewrite_str cs

end

/-- Body of the loop for col in column_names in rewrite_sql: look up
col_to_table_map[col] (the bare except skips missing columns), skip owners
equal to the fact table, and add the owner to the set dim_to_join. -/
def dimStep (schema : StarSchema) (acc : List String) (col : String) :
    List String :=
  match dictGet col schema.col_to_table_map with
  | none => acc
  | some dim_name =>
    if dim_name = schema.fact then acc else addSet acc dim_name

/-- Inner aggregation of rewrite_sql: the set dim_to_join collected by
folding the column loop body over column_names, starting from the empty set. -/
def dim_to_join (schema : StarSchema) (column_names : List String) :
    List String :=
  column_names.foldl (dimStep schema) []

/-- Loop building join_clauses: one string fact.key=dim.key per dimension, in
set order; the lookup schema[dimension_tables][dim] is not guarded, so a
missing key raises (none). -/
def join_clauses (schema : StarSchema) : List String → Option (List String)
  | [] => some []
  | dim :: ds =>
    match dictGet dim schema.dimension_tables, join_clauses schema ds with
    | some joining_col, some rest =>
      some ((schema.fact ++ "." ++ joining_col ++ "=" ++ dim ++ "." ++
        joining_col) :: rest)
    | _, _ => none

/-- Construction of rewrite_string from the plan: an empty plan yields
"FROM " + fact; otherwise the join clauses are joined with " AND ", the fact
table is added to the set dim_to_join, the table clause joins the set with
",", and the derived table string is assembled. -/
def rewrite_string (schema : StarSchema) (dims : List String) :
    Option String :=
  if dims.isEmpty then some ("FROM " ++ schema.fact)
  else
    match join_clauses schema dims with
    | none => none
    | some cls =>
      some ("FROM (SELECT * FROM " ++
        String.intercalate "," (addSet dims schema.fact) ++
        " WHERE " ++ String.intercalate " AND " cls ++ ")")

/-- One iteration of the loop for table_name in table_names: a KeyError on
the registry lookup or an empty dimension_tables dict continues with the tree
unchanged; otherwise the plan and rewrite string are computed and the tree is
transformed with rewrite_from. -/
def rewriteOneTable (reg : Registry) (column_names : List String)
    (tree : QNode) (table_name : String) : Option QNode :=
  match dictGet table_name reg with
  | none => some tree
  | some schema =>
    if schema.dimension_tables.isEmpty then some tree
    else
      match rewrite_string schema (dim_to_join schema column_names) with
      | none => none
      | some rs => some (rewriteFromTree table_name rs tree)

/-- The loop of rewrite_sql over the collected table names, threading the
tree; an uncaught exception in one iteration aborts the whole call. -/
def rewriteLoop (reg : Registry) (column_names : List String) :
    QNode → List String → Option QNode
  | tree, [] => some tree
  | tree, tn :: tns =>
    match rewriteOneTable reg column_names tree tn with
    | none => none
    | some t => rewriteLoop reg column_names t tns

/-- Backend.rewrite_sql: optimize the text into a tree, collect table and
column names, return the original text when no column names were collected,
otherwise run the per-table rewrite loop and serialize the final tree.  The
external optimizer and serializer are passed as parameters. -/
def rewrite_sql (optimizeFn : String → QNode) (serializeFn : QNode → String)
    (reg : Registry) (sql : String) : Option String :=
  let tree := optimizeFn sql
  let names := get_table_and_column_names tree
  if names.2.isEmpty then some sql
  else (rewriteLoop reg names.2 tree names.1).map serializeFn

/-- Concrete star schema used by witnesses and counterexamples, following the
sample schema documented on the Backend class. -/
def exSchema : StarSchema :=
  { fact := "accidents_fact"
    dimension_tables := [("accidents_dim1", "p1")]
    col_to_table_map := [("ID", "accidents_fact"), ("Severity", "accidents_dim1")] }

theorem dictGet_append {α : Type} (k : String) (l₁ l₂ : List (String × α)) :
    dictGet k (l₁ ++ l₂) =
      match dictGet k l₁ with
      | some v => some v
      | none => dictGet k l₂ := by
  induction l₁ with
  | nil => simp [dictGet]
  | cons p ps ih =>
    by_cases h : p.1 = k
    · simp [dictGet, h]
    · simp [dictGet, h, ih]

theorem dictGet_map_ne {α : Type} (k' k : String) (v : α)
    (l : List (String × α)) (h : k' ≠ k) :
    dictGet k' (l.map (fun p => if p.1 = k then (k, v) else p)) =
      dictGet k' l := by
  induction l with
  | nil => simp [dictGet]
  | cons p ps ih =>
    by_cases hp : p.1 = k
    · have : k ≠ k' := fun hk => h hk.symm
      simp [dictGet, hp, this, ih]
    · simp [dictGet, hp, ih]

theorem dictGet_map_self {α : Type} (k : String) (v : α)
    (l : List (String × α)) (h : (dictGet k l).isSome) :
    dictGet k (l.map (fun p => if p.1 = k then (k, v) else p)) = some v := by
  induction l with
  | nil => simp [dictGet] at h
  | cons p ps ih =>
    by_cases hp : p.1 = k
    · simp [dictGet, hp]
    · simp [dictGet, hp] at h ⊢
      exact ih h

theorem dictGet_dictUpdate_self {α : Type} (l : List (String × α))
    (k : String) (v : α) : dictGet k (dictUpdate l k v) = some v := by
  unfold dictUpdate
  by_cases h : (dictGet k l).isSome
  · simp only [h, if_true]
    exact dictGet_map_self k v l h
  · rw [if_neg h, dictGet_append]
    have hn : dictGet k l = none := by
      cases ho : dictGet k l with
      | none => rfl
      | some w => rw [ho] at h; simp at h
    rw [hn]
    simp [dictGet]

theorem dictGet_dictUpdate_ne {α : Type} (l : List (String × α))
    (k k' : String) (v : α) (h : k' ≠ k) :
    dictGet k' (dictUpdate l k v) = dictGet k' l := by
  unfold dictUpdate
  by_cases hs : (dictGet k l).isSome
  · rw [if_pos hs]
    exact dictGet_map_ne k' k v l h
  · rw [if_neg hs, dictGet_append]
    have hkk : ¬(k = k') := fun hk => h hk.symm
    cases ho : dictGet k' l with
    | none => simp [dictGet, hkk]
    | some w => rfl

theorem register_schema_single (reg : Registry) (k : String)
    (v : StarSchema) : register_schema reg [(k, v)] = dictUpdate reg k v := by
  simp [register_schema]

/-- Claim C8: registering a schema under a logical name makes lookup of that
name return the newly registered schema (overwriting any earlier entry),
leaves lookup of every other name unchanged, removes no existing entry, and
lookup of a name never registered returns none rather than failing. -/
theorem registry_register_lookup (reg : Registry) (k : String)
    (v : StarSchema) :
    dictGet k (register_schema reg [(k, v)]) = some v
    ∧ (∀ k', k' ≠ k →
        dictGet k' (register_schema reg [(k, v)]) = dictGet k' reg)
    ∧ (∀ k', (dictGet k' reg).isSome →
        (dictGet k' (register_schema reg [(k, v)])).isSome)
    ∧ (∀ (reg' : Registry) (k'' : String), (∀ p ∈ reg', p.1 ≠ k'') →
        dictGet k'' reg' = none) := by
  refine ⟨?_, ?_, ?_, ?_⟩
  · rw [register_schema_single]
    exact dictGet_dictUpdate_self reg k v
  · intro k' hk
    rw [register_schema_single]
    exact dictGet_dictUpdate_ne reg k k' v hk
  · intro k' hs
    rw [register_schema_single]
    by_cases hk : k' = k
    · subst hk
      rw [dictGet_dictUpdate_self]
      rfl
    · rw [dictGet_dictUpdate_ne reg k k' v hk]
      exact hs
  · intro reg' k'' hall
    induction reg' with
    | nil => rfl
    | cons p ps ih =>
      have hp : p.1 ≠ k'' := hall p (List.mem_cons_self p ps)
      simp only [dictGet, if_neg hp]
      exact ih (fun q hq => hall q (List.mem_cons_of_mem p hq))

/-- Witness for C8 at a concrete registry: registering exSchema under the
name accidents on a one-entry registry overwrites that entry and leaves a
differently named entry unchanged. -/
theorem registry_register_lookup_witness :
    dictGet "accidents"
      (register_schema [("accidents", exSchema)] [("accidents", exSchema)]) =
      some exSchema
    ∧ ("other" : String) ≠ "accidents"
    ∧ dictGet "other"
        (register_schema [("accidents", exSchema)] [("accidents", exSchema)]) =
        dictGet "other" [("accidents", exSchema)] :=
  ⟨(registry_register_lookup [("accidents", exSchema)] "accidents" exSchema).1,
   by decide,
   (registry_register_lookup [("accidents", exSchema)] "accidents"
      exSchema).2.1 "other" (by decide)⟩

/-- Claim C7: a referenced table whose registered schema has an empty
dimension_tables dict is skipped by the loop: the tree is returned unchanged,
in particular the FROM reference is not replaced by the fact table. -/
theorem empty_dimension_tables_skip (reg : Registry)
    (column_names : List String) (tree : QNode) (tn : String)
    (schema : StarSchema) (hlook : dictGet tn reg = some schema)
    (hdim : schema.dimension_tables = []) :
    rewriteOneTable reg column_names tree tn = some tree := by
  unfold rewriteOneTable
  rw [hlook]
  simp [hdim]

/-- Concrete schema with an empty dimension_tables dict, a no-op
registration. -/
def exSchemaNoDims : StarSchema :=
  { fact := "accidents_fact"
    dimension_tables := []
    col_to_table_map := [("ID", "accidents_fact")] }

/-- Witness for C7: a schema with no dimension tables, registered under the
name accidents, leaves a tree whose FROM node references accidents untouched. -/
theorem empty_dimension_tables_skip_witness :
    dictGet "accidents" [("accidents", exSchemaNoDims)] = some exSchemaNoDims
    ∧ exSchemaNoDims.dimension_tables = []
    ∧ rewriteOneTable [("accidents", exSchemaNoDims)] ["ID"]
        (QNode.other [QNode.fromN "accidents" none]) "accidents" =
      some (QNode.other [QNode.fromN "accidents" none]) :=
  ⟨rfl, rfl,
   empty_dimension_tables_skip [("accidents", exSchemaNoDims)] ["ID"]
     (QNode.other [QNode.fromN "accidents" none]) "accidents" exSchemaNoDims
     rfl rfl⟩

/-- Claim C9: rewriting is a pure function of the registry and the input
text (given the external optimizer and serializer): two invocations with
equal registries and equal input texts return equal output. -/
theorem rewrite_sql_deterministic (optimizeFn : String → QNode)
    (serializeFn : QNode → String) (reg₁ reg₂ : Registry) (s₁ s₂ : String)
    (hreg : reg₁ = reg₂) (hs : s₁ = s₂) :
    rewrite_sql optimizeFn serializeFn reg₁ s₁ =
      rewrite_sql optimizeFn serializeFn reg₂ s₂ := by
  subst hreg
  subst hs
  rfl

/-- Witness for C9 at concrete inputs. -/
theorem rewrite_sql_deterministic_witness :
    ([("accidents", exSchema)] : Registry) = [("accidents", exSchema)]
    ∧ ("SELECT ID FROM accidents" : String) = "SELECT ID FROM accidents"
    ∧ rewrite_sql (fun _ => QNode.other []) (fun _ => "")
        [("accidents", exSchema)] "SELECT ID FROM accidents" =
      rewrite_sql (fun _ => QNode.other []) (fun _ => "")
        [("accidents", exSchema)] "SELECT ID FROM accidents" :=
  ⟨rfl, rfl,
   rewrite_sql_deterministic (fun _ => QNode.other []) (fun _ => "")
     [("accidents", exSchema)] [("accidents", exSchema)]
     "SELECT ID FROM accidents" "SELECT ID FROM accidents" rfl rfl⟩

/-- Claim C3: when the extractor collects no column names from the optimized
tree, rewrite_sql returns the original input text itself, for every registry
and every serializer, so in particular even when a referenced table is
registered and regardless of how the optimizer normalized the tree. -/
theorem no_column_short_circuit (optimizeFn : String → QNode)
    (serializeFn : QNode → String) (reg : Registry) (sql : String)
    (h : (get_table_and_column_names (optimizeFn sql)).2 = []) :
    rewrite_sql optimizeFn serializeFn reg sql = some sql := by
  unfold rewrite_sql
  simp only [h]
  rfl

/-- Witness for C3: a query whose optimized tree has a FROM node for the
registered table fact_table_name but no column nodes is returned unchanged,
even with a serializer that would produce a different string. -/
theorem no_column_short_circuit_witness :
    (get_table_and_column_names
        ((fun _ => QNode.other [QNode.fromN "fact_table_name" none])
          "SELECT * FROM fact_table_name LIMIT 5")).2 = []
    ∧ rewrite_sql (fun _ => QNode.other [QNode.fromN "fact_table_name" none])
        (fun _ => "normalized") [("fact_table_name", exSchema)]
        "SELECT * FROM fact_table_name LIMIT 5" =
      some "SELECT * FROM fact_table_name LIMIT 5" :=
  ⟨rfl,
   no_column_short_circuit
     (fun _ => QNode.other [QNode.fromN "fact_table_name" none])
     (fun _ => "normalized") [("fact_table_name", exSchema)]
     "SELECT * FROM fact_table_name LIMIT 5" rfl⟩

/-- Counterexample for C4: rewriting the unaliased reference FROM accidents
does not leave the replacement unaliased; the code appends
" AS " + node.alias_or_name, and alias_or_name of an unaliased From node is
the table name itself, so the replacement term reads
FROM accidents_fact AS accidents. -/
theorem rewritten_from_unaliased_counterexample :
    rewrite_from "accidents" "FROM accidents_fact"
        (QNode.fromN "accidents" none) =
      QNode.fromRaw "FROM accidents_fact AS accidents"
    ∧ ("FROM accidents_fact AS accidents" : String) ≠ "FROM accidents_fact" :=
  ⟨rfl, by decide⟩

/-- Claim C4 as amended: the rewritten FROM term always carries an alias,
namely node.alias_or_name: the original alias when one is present, and the
original table name itself when the reference was unaliased. -/
theorem rewritten_from_alias (tn rs : String) (al : Option String)
    (h : alias_or_name tn al ≠ "") :
    rewrite_from tn rs (QNode.fromN tn al) =
      QNode.fromRaw (rs ++ " AS " ++ alias_or_name tn al)
    ∧ (∀ a, al = some a → a ≠ "" → alias_or_name tn al = a)
    ∧ (al = none → alias_or_name tn al = tn) := by
  refine ⟨?_, ?_, ?_⟩
  · simp [rewrite_from, h]
  · intro a ha hne
    subst ha
    simp [alias_or_name, hne]
  · intro ha
    subst ha
    simp [alias_or_name]

/-- Witness for C4: an aliased reference FROM accidents AS a keeps the alias
a on the rewritten term. -/
theorem rewritten_from_alias_witness :
    alias_or_name "accidents" (some "a") ≠ ""
    ∧ rewrite_from "accidents" "FROM accidents_fact"
        (QNode.fromN "accidents" (some "a")) =
      QNode.fromRaw ("FROM accidents_fact" ++ " AS " ++
        alias_or_name "accidents" (some "a")) :=
  ⟨by decide,
   (rewritten_from_alias "accidents" "FROM accidents_fact" (some "a")
      (by decide)).1⟩

theorem mem_addSet (s : List String) (x y : String) :
    y ∈ addSet s x ↔ y ∈ s ∨ y = x := by
  unfold addSet
  by_cases h : x ∈ s
  · simp only [if_pos h]
    constructor
    · exact Or.inl
    · rintro (hy | hy)
      · exact hy
      · subst hy; exact h
  · simp [if_neg h]

theorem nodup_addSet (s : List String) (x : String) (h : s.Nodup) :
    (addSet s x).Nodup := by
  unfold addSet
  by_cases hx : x ∈ s
  · simp [if_pos hx, h]
  · simp [if_neg hx, List.nodup_append, h, hx]

theorem mem_dimStep (schema : StarSchema) (acc : List String)
    (c d : String) :
    d ∈ dimStep schema acc c ↔
      d ∈ acc ∨
        (d ≠ schema.fact ∧ dictGet c schema.col_to_table_map = some d) := by
  cases ho : dictGet c schema.col_to_table_map with
  | none => simp [dimStep, ho]
  | some dn =>
    by_cases hf : dn = schema.fact
    · subst hf
      simp only [dimStep, ho, if_pos rfl, Option.some.injEq]
      constructor
      · exact Or.inl
      · rintro (h | ⟨hne, he⟩)
        · exact h
        · exact absurd he.symm hne
    · simp only [dimStep, ho, if_neg hf, mem_addSet, Option.some.injEq]
      constructor
      · rintro (h | h)
        · exact Or.inl h
        · exact Or.inr ⟨fun hdf => hf ((h.symm.trans hdf : dn = schema.fact)),
            h.symm⟩
      · rintro (h | ⟨hne, he⟩)
        · exact Or.inl h
        · exact Or.inr he.symm

theorem mem_dimFold (schema : StarSchema) (cns : List String) :
    ∀ (acc : List String) (d : String),
      d ∈ cns.foldl (dimStep schema) acc ↔
        d ∈ acc ∨ (d ≠ schema.fact ∧
          ∃ c ∈ cns, dictGet c schema.col_to_table_map = some d) := by
  induction cns with
  | nil => simp
  | cons c cs ih =>
    intro acc d
    rw [List.foldl_cons, ih, mem_dimStep]
    constructor
    · rintro ((h | ⟨hne, he⟩) | ⟨hne, x, hx, he⟩)
      · exact Or.inl h
      · exact Or.inr ⟨hne, c, List.mem_cons_self c cs, he⟩
      · exact Or.inr ⟨hne, x, List.mem_cons_of_mem c hx, he⟩
    · rintro (h | ⟨hne, x, hx, he⟩)
      · exact Or.inl (Or.inl h)
      · rcases List.mem_cons.mp hx with hx' | hx'
        · subst hx'
          exact Or.inl (Or.inr ⟨hne, he⟩)
        · exact Or.inr ⟨hne, x, hx', he⟩

theorem nodup_dimFold (schema : StarSchema) (cns : List String) :
    ∀ acc : List String, acc.Nodup → (cns.foldl (dimStep schema) acc).Nodup := by
  induction cns with
  | nil => intro acc h; simpa using h
  | cons c cs ih =>
    intro acc h
    rw [List.foldl_cons]
    apply ih
    cases ho : dictGet c schema.col_to_table_map with
    | none => simpa [dimStep, ho] using h
    | some dn =>
      by_cases hf : dn = schema.fact
      · simpa [dimStep, ho, if_pos hf] using h
      · simp only [dimStep, ho, if_neg hf]
        exact nodup_addSet acc dn h

/-- Claim C2: for every schema and extracted column set, the plan dim_to_join
is exactly the duplicate-free set of dimension tables owning at least one
referenced column per col_to_table_map: fact-owned columns contribute
nothing, columns absent from the map are skipped silently, and an empty plan
produces the fact-table-only rewrite string with no join. -/
theorem plan_is_owning_dims (schema : StarSchema) (cns : List String) :
    (dim_to_join schema cns).Nodup
    ∧ (∀ d, d ∈ dim_to_join schema cns ↔
        d ≠ schema.fact ∧
          ∃ c ∈ cns, dictGet c schema.col_to_table_map = some d)
    ∧ (dim_to_join schema cns = [] →
        rewrite_string schema (dim_to_join schema cns) =
          some ("FROM " ++ schema.fact)) := by
  refine ⟨?_, ?_, ?_⟩
  · exact nodup_dimFold schema cns [] List.nodup_nil
  · intro d
    unfold dim_to_join
    rw [mem_dimFold]
    simp
  · intro h
    rw [h]
    simp [rewrite_string]

theorem fact_not_mem_dim_to_join (schema : StarSchema) (cns : List String) :
    schema.fact ∉ dim_to_join schema cns := by
  intro h
  have := ((plan_is_owning_dims schema cns).2.1 schema.fact).mp h
  exact this.1 rfl

theorem join_clauses_eq_map (schema : StarSchema) (k : String → String) :
    ∀ dims : List String,
      (∀ d ∈ dims, dictGet d schema.dimension_tables = some (k d)) →
      join_clauses schema dims =
        some (dims.map (fun d =>
          schema.fact ++ "." ++ k d ++ "=" ++ d ++ "." ++ k d)) := by
  intro dims
  induction dims with
  | nil => intro _; rfl
  | cons d ds ih =>
    intro h
    have hd := h d (List.mem_cons_self d ds)
    have hds := ih (fun x hx => h x (List.mem_cons_of_mem d hx))
    simp [join_clauses, hd, hds]

/-- Claim C1 as amended: for a non-empty plan whose every dimension has a
join key registered in dimension_tables, the replacement FROM term is the
parenthesized derived table SELECT * FROM ... WHERE ..., whose table list is
the set dim_to_join after the fact table is added to it — in this model the
plan dimensions in collection order followed by the fact table, the fact
table last, not first — and whose WHERE clause has exactly one equality
conjunct per plan dimension, fact.key=dim.key, combined with AND. -/
theorem dim_join_rewrite_string_shape (schema : StarSchema)
    (cns : List String) (k : String → String)
    (hne : dim_to_join schema cns ≠ [])
    (hkeys : ∀ d ∈ dim_to_join schema cns,
      dictGet d schema.dimension_tables = some (k d)) :
    rewrite_string schema (dim_to_join schema cns) =
      some ("FROM (SELECT * FROM " ++
        String.intercalate "," (dim_to_join schema cns ++ [schema.fact]) ++
        " WHERE " ++
        String.intercalate " AND " ((dim_to_join schema cns).map
          (fun d => schema.fact ++ "." ++ k d ++ "=" ++ d ++ "." ++ k d)) ++
        ")") := by
  unfold rewrite_string
  rw [if_neg (by simpa [List.isEmpty_iff] using hne)]
  rw [join_clauses_eq_map schema k (dim_to_join schema cns) hkeys]
  have hfact : addSet (dim_to_join schema cns) schema.fact =
      dim_to_join schema cns ++ [schema.fact] := by
    unfold addSet
    rw [if_neg (fact_not_mem_dim_to_join schema cns)]
  rw [hfact]

/-- Witness for C1 at the concrete exSchema: columns ID and Severity give
the one-dimension plan, and the rewrite string is the derived table over
accidents_dim1 and accidents_fact joined on p1. -/
theorem dim_join_rewrite_string_shape_witness :
    dim_to_join exSchema ["ID", "Severity"] ≠ []
    ∧ (∀ d ∈ dim_to_join exSchema ["ID", "Severity"],
        dictGet d exSchema.dimension_tables = some ((fun _ => "p1") d))
    ∧ rewrite_string exSchema (dim_to_join exSchema ["ID", "Severity"]) =
      some ("FROM (SELECT * FROM " ++
        String.intercalate ","
          (dim_to_join exSchema ["ID", "Severity"] ++ [exSchema.fact]) ++
        " WHERE " ++
        String.intercalate " AND "
          ((dim_to_join exSchema ["ID", "Severity"]).map
            (fun d => exSchema.fact ++ "." ++ (fun _ => "p1") d ++ "=" ++ d ++
              "." ++ (fun _ => "p1") d)) ++ ")") :=
  ⟨by decide, by decide,
   dim_join_rewrite_string_shape exSchema ["ID", "Severity"] (fun _ => "p1")
     (by decide) (by decide)⟩

/-- Counterexample for C1: at the concrete exSchema with columns ID and
Severity, the generated table list is accidents_dim1,accidents_fact — the
fact table is added to the set last and is not first as the claim states. -/
theorem dim_join_rewrite_string_fact_last :
    rewrite_string exSchema (dim_to_join exSchema ["ID", "Severity"]) =
      some ("FROM (SELECT * FROM accidents_dim1,accidents_fact WHERE " ++
        "accidents_fact.p1=accidents_dim1.p1)")
    ∧ rewrite_string exSchema (dim_to_join exSchema ["ID", "Severity"]) ≠
      some ("FROM (SELECT * FROM accidents_fact,accidents_dim1 WHERE " ++
        "accidents_fact.p1=accidents_dim1.p1)") := by
  constructor
  · decide
  · decide

/-- Data-model invariant of a star schema: every value of col_to_table_map
is either the fact table or a key of dimension_tables. -/
def schemaInv (s : StarSchema) : Prop :=
  ∀ q ∈ s.col_to_table_map,
    q.2 = s.fact ∨ (dictGet q.2 s.dimension_tables).isSome

instance (s : StarSchema) : Decidable (schemaInv s) := by
  unfold schemaInv
  infer_instance

theorem dictGet_eq_some_mem {α : Type} (k : String) (v : α) :
    ∀ l : List (String × α), dictGet k l = some v → (k, v) ∈ l := by
  intro l
  induction l with
  | nil => intro h; cases h
  | cons p ps ih =>
    intro h
    unfold dictGet at h
    by_cases hp : p.1 = k
    · rw [if_pos hp] at h
      cases h
      cases p with
      | mk a b =>
        cases hp
        exact List.mem_cons_self _ _
    · rw [if_neg hp] at h
      exact List.mem_cons_of_mem p (ih h)

theorem join_clauses_isSome (schema : StarSchema) :
    ∀ dims : List String,
      (∀ d ∈ dims, (dictGet d schema.dimension_tables).isSome) →
      (join_clauses schema dims).isSome := by
  intro dims
  induction dims with
  | nil => intro _; rfl
  | cons d ds ih =>
    intro h
    have hd := h d (List.mem_cons_self d ds)
    have hds := ih (fun x hx => h x (List.mem_cons_of_mem d hx))
    rcases Option.isSome_iff_exists.mp hd with ⟨jc, hjc⟩
    rcases Option.isSome_iff_exists.mp hds with ⟨rest, hrest⟩
    simp [join_clauses, hjc, hrest]

theorem rewrite_string_isSome_of_inv (schema : StarSchema)
    (cns : List String) (hinv : schemaInv schema) :
    (rewrite_string schema (dim_to_join schema cns)).isSome := by
  unfold rewrite_string
  by_cases he : (dim_to_join schema cns).isEmpty
  · simp [he]
  · rw [if_neg he]
    have hall : ∀ d ∈ dim_to_join schema cns,
        (dictGet d schema.dimension_tables).isSome := by
      intro d hd
      have hchar := ((plan_is_owning_dims schema cns).2.1 d).mp hd
      rcases hchar.2 with ⟨c, _, hc⟩
      have hmem := dictGet_eq_some_mem c d schema.col_to_table_map hc
      rcases hinv (c, d) hmem with hfact | hsome
      · exact absurd hfact hchar.1
      · exact hsome
    rcases Option.isSome_iff_exists.mp
      (join_clauses_isSome schema (dim_to_join schema cns) hall) with ⟨cls, hcls⟩
    simp [hcls]

theorem rewriteOneTable_isSome (reg : Registry) (cns : List String)
    (tree : QNode) (tn : String)
    (hinv : ∀ p ∈ reg, schemaInv p.2) :
    (rewriteOneTable reg cns tree tn).isSome := by
  cases hl : dictGet tn reg with
  | none => simp [rewriteOneTable, hl]
  | some schema =>
    by_cases hd : schema.dimension_tables.isEmpty
    · simp [rewriteOneTable, hl, hd]
    · have hs : schemaInv schema :=
        hinv (tn, schema) (dictGet_eq_some_mem tn schema reg hl)
      rcases Option.isSome_iff_exists.mp
        (rewrite_string_isSome_of_inv schema cns hs) with ⟨rs, hrs⟩
      simp [rewriteOneTable, hl, hd, hrs]

theorem rewriteLoop_isSome (reg : Registry) (cns : List String)
    (hinv : ∀ p ∈ reg, schemaInv p.2) :
    ∀ (tns : List String) (tree : QNode),
      (rewriteLoop reg cns tree tns).isSome := by
  intro tns
  induction tns with
  | nil => intro tree; rfl
  | cons tn tns ih =>
    intro tree
    unfold rewriteLoop
    rcases Option.isSome_iff_exists.mp
      (rewriteOneTable_isSome reg cns tree tn hinv) with ⟨t, ht⟩
    rw [ht]
    exact ih t

/-- Claim C10: under the data-model invariant that every col_to_table_map
value is the fact table or a dimension_tables key, the join-key lookup
succeeds for every dimension in the plan, so building the derived-table text
never fails, and a whole rewrite_sql call over a registry of such schemas
never hits the uncaught KeyError branch. -/
theorem join_key_lookup_total (schema : StarSchema) (cns : List String)
    (optimizeFn : String → QNode) (serializeFn : QNode → String)
    (reg : Registry) (sql : String) :
    (schemaInv schema →
      (rewrite_string schema (dim_to_join schema cns)).isSome)
    ∧ ((∀ p ∈ reg, schemaInv p.2) →
      (rewrite_sql optimizeFn serializeFn reg sql).isSome) := by
  constructor
  · intro hinv
    exact rewrite_string_isSome_of_inv schema cns hinv
  · intro hinv
    unfold rewrite_sql
    by_cases he : (get_table_and_column_names (optimizeFn sql)).2.isEmpty
    · simp [he]
    · rw [if_neg he]
      rcases Option.isSome_iff_exists.mp
        (rewriteLoop_isSome reg
          (get_table_and_column_names (optimizeFn sql)).2 hinv
          (get_table_and_column_names (optimizeFn sql)).1
          (optimizeFn sql)) with ⟨t, ht⟩
      simp [ht]

/-- Witness for C10: exSchema satisfies the invariant, and both the
derived-table construction and a full rewrite over a one-entry registry
succeed on it. -/
theorem join_key_lookup_total_witness :
    schemaInv exSchema
    ∧ (rewrite_string exSchema (dim_to_join exSchema ["ID", "Severity"])).isSome
    ∧ (rewrite_sql
        (fun _ => QNode.other
          [QNode.fromN "accidents" none, QNode.colN "ID" none,
           QNode.colN "Severity" none])
        (fun _ => "") [("accidents", exSchema)]
        "SELECT ID, Severity FROM accidents").isSome :=
  ⟨by decide,
   (join_key_lookup_total exSchema ["ID", "Severity"]
      (fun _ => QNode.other []) (fun _ => "") [] "").1 (by decide),
   (join_key_lookup_total exSchema []
      (fun _ => QNode.other
        [QNode.fromN "accidents" none, QNode.colN "ID" none,
         QNode.colN "Severity" none])
      (fun _ => "") [("accidents", exSchema)]
      "SELECT ID, Severity FROM accidents").2 (by decide)⟩

mutual

theorem rewriteFromTree_noMatch : ∀ (tn rs : String) (t : QNode),
    countFromNamed tn t = 0 → rewriteFromTree tn rs t = t
  | tn, rs, QNode.fromN tbl al => by
    intro h
    simp only [countFromNamed] at h
    by_cases htb : tbl = tn
    · rw [if_pos htb] at h
      cases h
    · simp [rewriteFromTree, rewrite_from, htb]
  | tn, rs, QNode.fromRaw s => by intro _; rfl
  | tn, rs, QNode.colN nm q => by intro _; rfl
  | tn, rs, QNode.other cs => by
    intro h
    simp only [countFromNamed] at h
    simp only [rewriteFromTree]
    rw [rewriteFromTreeList_noMatch tn rs cs h]

theorem rewriteFromTreeList_noMatch : ∀ (tn rs : String) (cs : List QNode),
    countFromNamedList tn cs = 0 → rewriteFromTreeList tn rs cs = cs
  | tn, rs, [] => by intro _; rfl
  | tn, rs, c :: cs => by
    intro h
    simp only [countFromNamedList] at h
    have h1 : countFromNamed tn c = 0 := by omega
    have h2 : countFromNamedList tn cs = 0 := by omega
    simp only [rewriteFromTreeList]
    rw [rewriteFromTree_noMatch tn rs c h1,
      rewriteFromTreeList_noMatch tn rs cs h2]

end

mutual

theorem rewriteFromTree_counts : ∀ (tn rs : String) (t : QNode),
    countFromNamed tn (rewriteFromTree tn rs t) = 0
    ∧ countRaw (rewriteFromTree tn rs t) = countRaw t + countFromNamed tn t
    ∧ (∀ tn', tn' ≠ tn →
        countFromNamed tn' (rewriteFromTree tn rs t) = countFromNamed tn' t)
    ∧ collectColumns (rewriteFromTree tn rs t) = collectColumns t
  | tn, rs, QNode.fromN tbl al => by
    by_cases htb : tbl = tn
    · subst htb
      refine ⟨?_, ?_, ?_, ?_⟩
      · simp [rewriteFromTree, rewrite_from, countFromNamed]
      · simp [rewriteFromTree, rewrite_from, countRaw, countFromNamed]
      · intro tn' hne
        have htn : ¬(tbl = tn') := fun h => hne h.symm
        simp [rewriteFromTree, rewrite_from, countFromNamed, htn]
      · simp [rewriteFromTree, rewrite_from, collectColumns]
    · refine ⟨?_, ?_, ?_, ?_⟩
      · simp [rewriteFromTree, rewrite_from, countFromNamed, htb]
      · simp [rewriteFromTree, rewrite_from, countRaw, countFromNamed, htb]
      · intro tn' hne
        simp [rewriteFromTree, rewrite_from, htb]
      · simp [rewriteFromTree, rewrite_from, htb]
  | tn, rs, QNode.fromRaw s => by
    refine ⟨?_, ?_, ?_, ?_⟩ <;>
      simp [rewriteFromTree, rewrite_from, countFromNamed, countRaw,
        collectColumns]
  | tn, rs, QNode.colN nm q => by
    refine ⟨?_, ?_, ?_, ?_⟩ <;>
      simp [rewriteFromTree, rewrite_from, countFromNamed, countRaw,
        collectColumns]
  | tn, rs, QNode.other cs => by
    have ih := rewriteFromTreeList_counts tn rs cs
    refine ⟨?_, ?_, ?_, ?_⟩
    · simp [rewriteFromTree, countFromNamed, ih.1]
    · simp [rewriteFromTree, countRaw, countFromNamed, ih.2.1]
    · intro tn' hne
      simp [rewriteFromTree, countFromNamed, ih.2.2.1 tn' hne]
    · simp [rewriteFromTree, collectColumns, ih.2.2.2]

theorem rewriteFromTreeList_counts : ∀ (tn rs : String) (cs : List QNode),
    countFromNamedList tn (rewriteFromTreeList tn rs cs) = 0
    ∧ countRawList (rewriteFromTreeList tn rs cs) =
        countRawList cs + countFromNamedList tn cs
    ∧ (∀ tn', tn' ≠ tn →
        countFromNamedList tn' (rewriteFromTreeList tn rs cs) =
          countFromNamedList tn' cs)
    ∧ collectColumnsList (rewriteFromTreeList tn rs cs) =
        collectColumnsList cs
  | tn, rs, [] => by
    refine ⟨rfl, rfl, fun _ _ => rfl, rfl⟩
  | tn, rs, c :: cs => by
    have ihc := rewriteFromTree_counts tn rs c
    have ihl := rewriteFromTreeList_counts tn rs cs
    refine ⟨?_, ?_, ?_, ?_⟩
    · simp [rewriteFromTreeList, countFromNamedList, ihc.1, ihl.1]
    · simp only [rewriteFromTreeList, countFromNamedList, countRawList,
        ihc.2.1, ihl.2.1]
      omega
    · intro tn' hne
      simp [rewriteFromTreeList, countFromNamedList, ihc.2.2.1 tn' hne,
        ihl.2.2.1 tn' hne]
    · simp [rewriteFromTreeList, collectColumnsList, ihc.2.2.2, ihl.2.2.2]

end

/-- Counterexample for C5: a tree in which the registered table accidents
occupies two FROM positions; the per-table transform replaces both nodes,
not exactly one. -/
theorem rewrite_from_replaces_all_matching :
    countFromNamed "accidents"
        (QNode.other [QNode.fromN "accidents" none,
          QNode.other [QNode.fromN "accidents" none]]) = 2
    ∧ countRaw
        (QNode.other [QNode.fromN "accidents" none,
          QNode.other [QNode.fromN "accidents" none]]) = 0
    ∧ rewriteFromTree "accidents" "FROM accidents_fact"
        (QNode.other [QNode.fromN "accidents" none,
          QNode.other [QNode.fromN "accidents" none]]) =
      QNode.other [QNode.fromRaw "FROM accidents_fact AS accidents",
        QNode.other [QNode.fromRaw "FROM accidents_fact AS accidents"]]
    ∧ countRaw
        (rewriteFromTree "accidents" "FROM accidents_fact"
          (QNode.other [QNode.fromN "accidents" none,
            QNode.other [QNode.fromN "accidents" none]])) = 2 :=
  ⟨rfl, rfl, rfl, rfl⟩

/-- Claim C5 as amended: a per-table application of the rewriter replaces
every FROM node whose name equals the rewritten table (hence exactly one
when that table occupies exactly one FROM position) and leaves everything
else untouched: a tree with no matching FROM node is returned unchanged,
no matching FROM node survives, the number of replaced nodes equals the
number of matching FROM nodes, FROM nodes of every other table and all
column nodes are preserved, and a table absent from the registry leaves
the tree unchanged at the driver level. -/
theorem rewrite_from_frame (tn rs : String) (t : QNode) :
    (countFromNamed tn t = 0 → rewriteFromTree tn rs t = t)
    ∧ countFromNamed tn (rewriteFromTree tn rs t) = 0
    ∧ countRaw (rewriteFromTree tn rs t) = countRaw t + countFromNamed tn t
    ∧ (∀ tn', tn' ≠ tn →
        countFromNamed tn' (rewriteFromTree tn rs t) = countFromNamed tn' t)
    ∧ collectColumns (rewriteFromTree tn rs t) = collectColumns t
    ∧ (∀ (reg : Registry) (cns : List String), dictGet tn reg = none →
        rewriteOneTable reg cns t tn = some t) := by
  refine ⟨rewriteFromTree_noMatch tn rs t, (rewriteFromTree_counts tn rs t).1,
    (rewriteFromTree_counts tn rs t).2.1,
    (rewriteFromTree_counts tn rs t).2.2.1,
    (rewriteFromTree_counts tn rs t).2.2.2, ?_⟩
  intro reg cns hl
  simp [rewriteOneTable, hl]

/-- Witness for C5: a FROM node referencing an unregistered table is left
unchanged by the transform and by the driver step. -/
theorem rewrite_from_frame_witness :
    countFromNamed "accidents" (QNode.fromN "unregistered" none) = 0
    ∧ rewriteFromTree "accidents" "FROM accidents_fact"
        (QNode.fromN "unregistered" none) = QNode.fromN "unregistered" none
    ∧ dictGet "accidents" ([] : Registry) = none
    ∧ rewriteOneTable ([] : Registry) ["ID"]
        (QNode.fromN "unregistered" none) "accidents" =
      some (QNode.fromN "unregistered" none) :=
  ⟨rfl,
   (rewrite_from_frame "accidents" "FROM accidents_fact"
      (QNode.fromN "unregistered" none)).1 rfl,
   rfl,
   (rewrite_from_frame "accidents" "FROM accidents_fact"
      (QNode.fromN "unregistered" none)).2.2.2.2.2 [] ["ID"] rfl⟩

mutual

theorem mem_collectTables : ∀ (t : QNode) (x : String),
    x ∈ collectTables t ↔ x ≠ "" ∧ ∃ al, QNode.fromN x al ∈ subnodes t
  | QNode.fromN tbl al, x => by
    by_cases h : tbl = ""
    · subst h
      simp [collectTables, subnodes]
    · simp only [collectTables, subnodes, if_neg h, List.mem_singleton,
        QNode.fromN.injEq]
      constructor
      · intro hx
        subst hx
        exact ⟨h, al, rfl, rfl⟩
      · rintro ⟨hne, al', hx, hal⟩
        exact hx
  | QNode.fromRaw s, x => by
    simp [collectTables, subnodes]
  | QNode.colN nm q, x => by
    simp [collectTables, subnodes]
  | QNode.other cs, x => by
    rw [show collectTables (QNode.other cs) = collectTablesList cs from rfl]
    rw [mem_collectTablesList cs x]
    simp only [subnodes, List.mem_cons]
    constructor
    · rintro ⟨hne, al, hal⟩
      exact ⟨hne, al, Or.inr hal⟩
    · rintro ⟨hne, al, hal | hal⟩
      · cases hal
      · exact ⟨hne, al, hal⟩

theorem mem_collectTablesList : ∀ (cs : List QNode) (x : String),
    x ∈ collectTablesList cs ↔
      x ≠ "" ∧ ∃ al, QNode.fromN x al ∈ subnodesList cs
  | [], x => by simp [collectTablesList, subnodesList]
  | c :: cs, x => by
    rw [show collectTablesList (c :: cs) =
      collectTables c ++ collectTablesList cs from rfl]
    rw [List.mem_append, mem_collectTables c x, mem_collectTablesList cs x]
    rw [show subnodesList (c :: cs) = subnodes c ++ subnodesList cs from rfl]
    constructor
    · rintro (⟨hne, al, hal⟩ | ⟨hne, al, hal⟩)
      · exact ⟨hne, al, List.mem_append.mpr (Or.inl hal)⟩
      · exact ⟨hne, al, List.mem_append.mpr (Or.inr hal)⟩
    · rintro ⟨hne, al, hal⟩
      rcases List.mem_append.mp hal with hal | hal
      · exact Or.inl ⟨hne, al, hal⟩
      · exact Or.inr ⟨hne, al, hal⟩

end

mutual

theorem mem_collectColumns : ∀ (t : QNode) (c : String),
    c ∈ collectColumns t ↔ ∃ q, QNode.colN c q ∈ subnodes t
  | QNode.fromN tbl al, c => by
    simp [collectColumns, subnodes]
  | QNode.fromRaw s, c => by
    simp [collectColumns, subnodes]
  | QNode.colN nm q, c => by
    simp only [collectColumns, subnodes, List.mem_singleton,
      QNode.colN.injEq]
    constructor
    · intro hc
      exact ⟨q, hc, rfl⟩
    · rintro ⟨q', hc, hq⟩
      exact hc
  | QNode.other cs, c => by
    rw [show collectColumns (QNode.other cs) = collectColumnsList cs from rfl]
    rw [mem_collectColumnsList cs c]
    simp only [subnodes, List.mem_cons]
    constructor
    · rintro ⟨q, hq⟩
      exact ⟨q, Or.inr hq⟩
    · rintro ⟨q, hq | hq⟩
      · cases hq
      · exact ⟨q, hq⟩

theorem mem_collectColumnsList : ∀ (cs : List QNode) (c : String),
    c ∈ collectColumnsList cs ↔ ∃ q, QNode.colN c q ∈ subnodesList cs
  | [], c => by simp [collectColumnsList, subnodesList]
  | n :: cs, c => by
    rw [show collectColumnsList (n :: cs) =
      collectColumns n ++ collectColumnsList cs from rfl]
    rw [List.mem_append, mem_collectColumns n c, mem_collectColumnsList cs c]
    rw [show subnodesList (n :: cs) = subnodes n ++ subnodesList cs from rfl]
    constructor
    · rintro (⟨q, hq⟩ | ⟨q, hq⟩)
      · exact ⟨q, List.mem_append.mpr (Or.inl hq)⟩
      · exact ⟨q, List.mem_append.mpr (Or.inr hq)⟩
    · rintro ⟨q, hq⟩
      rcases List.mem_append.mp hq with hq | hq
      · exact Or.inl ⟨q, hq⟩
      · exact Or.inr ⟨q, hq⟩

end

theorem mem_foldl_addSet (l : List String) :
    ∀ (acc : List String) (x : String),
      x ∈ l.foldl addSet acc ↔ x ∈ acc ∨ x ∈ l := by
  induction l with
  | nil => simp
  | cons a as ih =>
    intro acc x
    rw [List.foldl_cons, ih, mem_addSet]
    simp [or_assoc]

theorem mem_dedupIns (l : List String) (x : String) :
    x ∈ dedupIns l ↔ x ∈ l := by
  unfold dedupIns
  rw [mem_foldl_addSet]
  simp

/-- Claim C6: the extractor pass returns exactly the table names written on
FROM nodes anywhere in the tree at any nesting depth, not resolved against
aliases (the alias is existentially irrelevant), together with the bare
names of all column-reference nodes with any qualifier ignored. -/
theorem extractor_characterization (t : QNode) (x c : String) :
    (x ∈ (get_table_and_column_names t).1 ↔
      x ≠ "" ∧ ∃ al, QNode.fromN x al ∈ subnodes t)
    ∧ (c ∈ (get_table_and_column_names t).2 ↔
      ∃ q, QNode.colN c q ∈ subnodes t) := by
  constructor
  · rw [show (get_table_and_column_names t).1 =
      dedupIns (collectTables t) from rfl]
    rw [mem_dedupIns]
    exact mem_collectTables t x
  · rw [show (get_table_and_column_names t).2 =
      dedupIns (collectColumns t) from rfl]
    rw [mem_dedupIns]
    exact mem_collectColumns t c
